import Mathlib

/-!
Verification of the FloeDyn collision-resolution core.

Shallow embedding of the C++ sources:
- `src/floe/collision/floe_contact.hpp` (shared solved flag),
- `src/floe/ope/LCP_solver.hpp` (driver cascade, acceptance oracle,
  normal-velocity test, random perturbation),
- `src/floe/ope/LCP_manager.hpp` and `src/floe/lcp/LCP_manager.hpp`
  (sub-graph schedulers and floe-state write-back).

Machine doubles are embedded as exact rationals; `std::shared_ptr<bool>`
cells are embedded as addresses into an explicit heap of booleans.
-/

/- ----------------------------------------------------------------- -/
/- Contact and its shared solved flag (floe_contact.hpp)             -/
/- ----------------------------------------------------------------- -/

/-- Heap of shared boolean cells: models the `std::shared_ptr<bool>` cells
that hold each contact's solved flag. An address is an index into the list. -/
abbrev Heap := List Bool

/-- `FloeContact` from `floe_contact.hpp`: a list of contact points
(`std::vector<TContactPoint>` base class, point data irrelevant here, kept
as rationals), the address `m_solved` of the shared boolean cell, and the
two floe interface indices. -/
structure FloeContact where
  contact_list : List ℚ
  m_solved : ℕ
  m_id_ifloe1 : ℕ
  m_id_ifloe2 : ℕ
  deriving DecidableEq

/-- `FloeContact::FloeContact()` : default constructor; allocates a fresh
shared cell holding `true` (`std::make_shared<bool>(true)`). -/
def FloeContact.mkDefault (h : Heap) : FloeContact × Heap :=
  (⟨[], h.length, 0, 0⟩, h ++ [true])

/-- `FloeContact::FloeContact(contact_list, n1, n2)` : list constructor;
also allocates a fresh shared cell holding `true`. -/
def FloeContact.mkFromList (h : Heap) (contact_list : List ℚ) (n1 n2 : ℕ) :
    FloeContact × Heap :=
  (⟨contact_list, h.length, n1, n2⟩, h ++ [true])

/-- The defaulted copy constructor `FloeContact(FloeContact const&) = default`:
copies the `shared_ptr`, i.e. the copy aliases the same boolean cell. -/
def FloeContact.copy (c : FloeContact) : FloeContact := c

/-- `FloeContact::mark_solved(b)` : `*m_solved = b` through the shared pointer. -/
def FloeContact.mark_solved (h : Heap) (c : FloeContact) (b : Bool) : Heap :=
  h.set c.m_solved b

/-- `FloeContact::is_solved()` : `*m_solved`. -/
def FloeContact.is_solved (h : Heap) (c : FloeContact) : Bool :=
  h.getD c.m_solved false

theorem List.getD_set_self (l : List Bool) (i : ℕ) (b : Bool) (h : i < l.length) :
    (l.set i b).getD i false = b := by
  induction l generalizing i with
  | nil => simp at h
  | cons x xs ih =>
    cases i with
    | zero => rfl
    | succ n =>
      simp only [List.set_cons_succ, List.getD_cons_succ]
      exact ih n (by simp at h; exact h)

theorem List.getD_append_length (l : List Bool) (b : Bool) :
    (l ++ [b]).getD l.length false = b := by
  induction l with
  | nil => rfl
  | cons x xs ih => simp [ih]

/-- C9: the solved flag is a single shared scalar per contact: writing it
through any alias (any `FloeContact` whose `m_solved` pointer is the same
cell, e.g. a copy) makes `is_solved` return the written value on every alias;
moreover the defaulted copy constructor does produce an alias. -/
theorem c9_solved_flag_shared (h : Heap) (c c' : FloeContact) (b : Bool)
    (halias : c'.m_solved = c.m_solved) (hlt : c.m_solved < h.length) :
    FloeContact.is_solved (FloeContact.mark_solved h c b) c' = b ∧
    (FloeContact.copy c).m_solved = c.m_solved := by
  refine ⟨?_, rfl⟩
  unfold FloeContact.is_solved FloeContact.mark_solved
  rw [halias]
  exact List.getD_set_self h c.m_solved b hlt

/-- Witness for C9 at a concrete heap and a concrete contact/copy pair. -/
theorem c9_solved_flag_shared_witness :
    FloeContact.is_solved
      (FloeContact.mark_solved [false] ⟨[], 0, 1, 2⟩ true)
      (FloeContact.copy ⟨[], 0, 1, 2⟩) = true ∧
    (FloeContact.copy (⟨[], 0, 1, 2⟩ : FloeContact)).m_solved = 0 :=
  c9_solved_flag_shared [false] ⟨[], 0, 1, 2⟩ (FloeContact.copy ⟨[], 0, 1, 2⟩)
    true rfl (by decide)

/-- C10: both constructors create the shared cell holding `true`, so a
freshly constructed contact reports `is_solved() == true` before any
`mark_solved` call. -/
theorem c10_fresh_contact_solved (h : Heap) (cl : List ℚ) (n1 n2 : ℕ) :
    FloeContact.is_solved (FloeContact.mkDefault h).2 (FloeContact.mkDefault h).1
      = true ∧
    FloeContact.is_solved (FloeContact.mkFromList h cl n1 n2).2
      (FloeContact.mkFromList h cl n1 n2).1 = true := by
  constructor <;>
    simp [FloeContact.is_solved, FloeContact.mkDefault, FloeContact.mkFromList,
      List.getD_append_length]

/- ----------------------------------------------------------------- -/
/- Acceptance oracle LCPtest (LCP_solver.hpp)                        -/
/- ----------------------------------------------------------------- -/

/-- `LCPSolver::LCPtest(compt, EC, born_EC, Err, VRelNtest)` : the tiered
acceptance oracle. `resp` starts at `1` and is cleared when the tier's
tolerance test fails; an unknown tier leaves `resp` untouched. -/
def LCPtest (compt : ℕ) (EC born_EC Err : ℚ) (vrelntest : Bool) : Bool :=
  if compt = 1 then
    if EC > born_EC * (1 + 1/10^4) ∨ |Err| > 1/10^11 ∨ vrelntest = false
    then false else true
  else if compt = 2 then
    if EC > born_EC * (1 + 1/10^4) ∨ |Err| > 1/10^8 ∨ vrelntest = false
    then false else true
  else if compt = 3 then
    if EC > born_EC * (1 + 1/10^2) ∨ vrelntest = false
    then false else true
  else true

/-- C4: with `born_EC = 1` (the value the driver always passes), the oracle
accepts at tier 1 iff `EC ≤ 1 + 1e-4`, `|Err| ≤ 1e-11` and the
normal-velocity test holds; at tier 2 with `|Err| ≤ 1e-8`; at tier 3 iff
`EC ≤ 1 + 1e-2` and the normal-velocity test holds. -/
theorem c4_LCPtest_tiers (EC Err : ℚ) (v : Bool) :
    (LCPtest 1 EC 1 Err v = true ↔
      (EC ≤ 1 + 1/10^4 ∧ |Err| ≤ 1/10^11 ∧ v = true)) ∧
    (LCPtest 2 EC 1 Err v = true ↔
      (EC ≤ 1 + 1/10^4 ∧ |Err| ≤ 1/10^8 ∧ v = true)) ∧
    (LCPtest 3 EC 1 Err v = true ↔
      (EC ≤ 1 + 1/10^2 ∧ v = true)) := by
  cases v <;> simp [LCPtest, not_or, not_lt]

/- ----------------------------------------------------------------- -/
/- Normal-velocity test VRelNtest (LCP_solver.hpp)                   -/
/- ----------------------------------------------------------------- -/

/-- `LCPSolver::VRelNtest(V, graph)` : walks the contacts in edge-then-list
order with a running `contact_id`; here the walk is flattened into a list of
pairs `(V[contact_id], contact.dist)`. A contact with negative normal
velocity whose displacement `V * dt` exceeds `dist / 50` returns `0`
immediately; otherwise the walk ends with `1`. `dt` stands for
`DT_DEFAULT`. -/
def VRelNtest (dt : ℚ) : List (ℚ × ℚ) → Bool
  | [] => true
  | vc :: rest =>
      if vc.1 < 0 ∧ vc.1 * dt > vc.2 / 50 then false else VRelNtest dt rest

/-- C7: the test rejects iff some contact has `V < 0` and `V * dt > dist/50`,
and in particular accepts whenever no contact has negative normal velocity. -/
theorem c7_VRelNtest_spec (dt : ℚ) (l : List (ℚ × ℚ)) :
    (VRelNtest dt l = false ↔ ∃ p ∈ l, p.1 < 0 ∧ p.1 * dt > p.2 / 50) ∧
    ((∀ p ∈ l, 0 ≤ p.1) → VRelNtest dt l = true) := by
  induction l with
  | nil => simp [VRelNtest]
  | cons vc rest ih =>
    constructor
    · by_cases hc : vc.1 < 0 ∧ vc.1 * dt > vc.2 / 50
      · simp [VRelNtest, hc]
      · simp only [VRelNtest, if_neg hc, ih.1, List.mem_cons]
        constructor
        · rintro ⟨p, hp, hp2⟩; exact ⟨p, Or.inr hp, hp2⟩
        · rintro ⟨p, hp | hp, hp2⟩
          · exact absurd (hp ▸ hp2) hc
          · exact ⟨p, hp, hp2⟩
    · intro hall
      have hvc : ¬ (vc.1 < 0 ∧ vc.1 * dt > vc.2 / 50) := by
        intro hc
        exact absurd (hall vc (List.mem_cons_self vc rest)) (not_le.mpr hc.1)
      simp only [VRelNtest, if_neg hvc]
      exact ih.2 fun p hp => hall p (List.mem_cons_of_mem vc hp)

/-- Witness for C7: a separating contact is accepted, and an approaching,
deepening contact is rejected, at concrete inputs. -/
theorem c7_VRelNtest_witness :
    VRelNtest 1 [((1 : ℚ), (2 : ℚ))] = true ∧
    VRelNtest 1 [((-1 : ℚ), (-100 : ℚ))] = false :=
  ⟨(c7_VRelNtest_spec 1 [(1, 2)]).2 (by norm_num),
   (c7_VRelNtest_spec 1 [(-1, -100)]).1.mpr
     ⟨(-1, -100), by simp, by norm_num, by norm_num⟩⟩

/- ----------------------------------------------------------------- -/
/- Random perturbation (LCP_solver.hpp)                              -/
/- ----------------------------------------------------------------- -/

/-- `LCPSolver::random_real(max)` :
`(value_type)(std::rand() - RAND_MAX / 2) / RAND_MAX * max`, where `r` is
the value returned by `std::rand()` (so `0 ≤ r ≤ RAND_MAX`) and
`RAND_MAX / 2` is integer division. -/
def random_real (R r : ℕ) (mx : ℚ) : ℚ :=
  (((r : ℕ) : ℚ) - ((R / 2 : ℕ) : ℚ)) / ((R : ℕ) : ℚ) * mx

/-- `LCPSolver::random_perturbation(lcp, max)`, inner row walk: each entry
of the row is visited in order; a nonzero entry gets `random_real` of the
next `std::rand()` draw added (`rand k` is the `k`-th draw of the
process-wide stream), a zero entry is skipped and consumes no draw.
Returns the new row and the next unconsumed draw index. -/
def perturbRow (R : ℕ) (rand : ℕ → ℕ) (mx : ℚ) : List ℚ → ℕ → List ℚ × ℕ
  | [], k => ([], k)
  | a :: rest, k =>
    if a ≠ 0 then
      let p := perturbRow R rand mx rest (k + 1)
      ((a + random_real R (rand k) mx) :: p.1, p.2)
    else
      let p := perturbRow R rand mx rest k
      (a :: p.1, p.2)

/-- `LCPSolver::random_perturbation(lcp, max)` : walks the matrix `A` row by
row (iterator pair `it1`/`it2`) perturbing nonzero entries. -/
def random_perturbation (R : ℕ) (rand : ℕ → ℕ) (mx : ℚ) :
    List (List ℚ) → ℕ → List (List ℚ) × ℕ
  | [], k => ([], k)
  | row :: rows, k =>
    let p := perturbRow R rand mx row k
    let q := random_perturbation R rand mx rows p.2
    (p.1 :: q.1, q.2)

/-- Relation between an entry of `A` and the corresponding entry after
`random_perturbation`: zero entries are unchanged, nonzero entries have one
`random_real` draw added. -/
def PerturbedCell (R : ℕ) (mx a b : ℚ) : Prop :=
  (a = 0 ∧ b = a) ∨ (a ≠ 0 ∧ ∃ r : ℕ, r ≤ R ∧ b = a + random_real R r mx)

theorem random_real_bounds (R r : ℕ) (mx : ℚ) (hR : 0 < R) (hr : r ≤ R)
    (hmx : 0 ≤ mx) :
    -(mx / 2) ≤ random_real R r mx ∧
      random_real R r mx ≤ mx / 2 + mx / (2 * R) := by
  have hRq : (0 : ℚ) < (R : ℚ) := by exact_mod_cast hR
  have hq1n : 2 * (R / 2) ≤ R := by omega
  have hq2n : R ≤ 2 * (R / 2) + 1 := by omega
  have hq1 : 2 * ((R / 2 : ℕ) : ℚ) ≤ (R : ℚ) := by exact_mod_cast hq1n
  have hq2 : (R : ℚ) ≤ 2 * ((R / 2 : ℕ) : ℚ) + 1 := by exact_mod_cast hq2n
  have hr0 : (0 : ℚ) ≤ (r : ℚ) := Nat.cast_nonneg r
  have hrR : (r : ℚ) ≤ (R : ℚ) := by exact_mod_cast hr
  unfold random_real
  constructor
  · rw [div_mul_eq_mul_div, le_div_iff₀ hRq]
    nlinarith [mul_nonneg hmx hr0,
      mul_nonneg hmx (by linarith : (0 : ℚ) ≤ (R : ℚ) - 2 * ((R / 2 : ℕ) : ℚ))]
  · rw [div_mul_eq_mul_div, div_le_iff₀ hRq]
    have hexp : (mx / 2 + mx / (2 * (R : ℚ))) * (R : ℚ)
        = mx * (R : ℚ) / 2 + mx / 2 := by
      field_simp
      ring
    rw [hexp]
    nlinarith [mul_nonneg hmx (by linarith : (0 : ℚ) ≤ (R : ℚ) - (r : ℚ)),
      mul_nonneg hmx
        (by linarith : (0 : ℚ) ≤ 2 * ((R / 2 : ℕ) : ℚ) + 1 - (R : ℚ))]

theorem perturbRow_forall2 (R : ℕ) (rand : ℕ → ℕ) (mx : ℚ)
    (hrand : ∀ t, rand t ≤ R) :
    ∀ (row : List ℚ) (k : ℕ),
      List.Forall₂ (PerturbedCell R mx) row (perturbRow R rand mx row k).1 := by
  intro row
  induction row with
  | nil => intro k; simp [perturbRow]
  | cons a rest ih =>
    intro k
    by_cases ha : a = 0
    · simp only [perturbRow, ha, ne_eq, not_true_eq_false, if_false]
      exact List.Forall₂.cons
        (show PerturbedCell R mx 0 0 from Or.inl ⟨rfl, rfl⟩) (ih k)
    · simp only [perturbRow, ne_eq, ha, not_false_eq_true, if_true]
      exact List.Forall₂.cons
        (show PerturbedCell R mx a (a + random_real R (rand k) mx) from
          Or.inr ⟨ha, rand k, hrand k, rfl⟩) (ih (k + 1))

theorem random_perturbation_forall2 (R : ℕ) (rand : ℕ → ℕ) (mx : ℚ)
    (hrand : ∀ t, rand t ≤ R) :
    ∀ (A : List (List ℚ)) (k : ℕ),
      List.Forall₂ (List.Forall₂ (PerturbedCell R mx)) A
        (random_perturbation R rand mx A k).1 := by
  intro A
  induction A with
  | nil => intro k; simp [random_perturbation]
  | cons row rows ih =>
    intro k
    exact List.Forall₂.cons (perturbRow_forall2 R rand mx hrand row k)
      (ih (perturbRow R rand mx row k).2)

/-- C6 counterexample: the perturbation values do not span `[-1e-10, 1e-10]`.
For both common values of `RAND_MAX` (32767 and 2147483647), no draw of
`random_real` with `max = 1e-10` even reaches `(3/4)·1e-10`; the attainable
interval is only about `[-1e-10/2, 1e-10/2]`. -/
theorem c6_random_perturbation_counterexample :
    (¬ ∃ r : ℕ, r ≤ 32767 ∧
        (3 / 4 : ℚ) * (1 / 10 ^ 10) ≤ random_real 32767 r (1 / 10 ^ 10)) ∧
    (¬ ∃ r : ℕ, r ≤ 2147483647 ∧
        (3 / 4 : ℚ) * (1 / 10 ^ 10) ≤ random_real 2147483647 r (1 / 10 ^ 10)) := by
  constructor
  · rintro ⟨r, hr, hge⟩
    have hrq : (r : ℚ) ≤ 32767 := by exact_mod_cast hr
    have hdiv : ((32767 / 2 : ℕ) : ℚ) = 16383 := by norm_num
    unfold random_real at hge
    rw [hdiv] at hge
    norm_num at hge
    linarith
  · rintro ⟨r, hr, hge⟩
    have hrq : (r : ℚ) ≤ 2147483647 := by exact_mod_cast hr
    have hdiv : ((2147483647 / 2 : ℕ) : ℚ) = 1073741823 := by norm_num
    unfold random_real at hge
    rw [hdiv] at hge
    norm_num at hge
    linarith

/-- C6 amended: `random_perturbation` adds an independently drawn value
`random_real R r ε` (the `r` being successive `std::rand()` draws) to each
nonzero entry of `A` and leaves every zero entry unchanged; each added value
lies in roughly `[-ε/2, +ε/2]` (precisely within
`[-ε/2, ε/2 + ε/(2·RAND_MAX)]`), not in `[-ε, +ε]`. -/
theorem c6_amended_random_perturbation (R : ℕ) (rand : ℕ → ℕ) (mx : ℚ)
    (A : List (List ℚ)) (k : ℕ) (hR : 0 < R) (hrand : ∀ t, rand t ≤ R)
    (hmx : 0 ≤ mx) :
    List.Forall₂ (List.Forall₂ (PerturbedCell R mx)) A
      (random_perturbation R rand mx A k).1 ∧
    ∀ r : ℕ, r ≤ R → -(mx / 2) ≤ random_real R r mx ∧
      random_real R r mx ≤ mx / 2 + mx / (2 * R) :=
  ⟨random_perturbation_forall2 R rand mx hrand A k,
   fun r hr => random_real_bounds R r mx hR hr hmx⟩

/-- Witness for the amended C6 at a concrete matrix and draw stream. -/
theorem c6_amended_witness :
    List.Forall₂ (List.Forall₂ (PerturbedCell 3 1)) [[(1 : ℚ), 0]]
      (random_perturbation 3 (fun _ => 1) 1 [[(1 : ℚ), 0]] 0).1 ∧
    ∀ r : ℕ, r ≤ 3 → -((1 : ℚ) / 2) ≤ random_real 3 r 1 ∧
      random_real 3 r 1 ≤ (1 : ℚ) / 2 + (1 : ℚ) / (2 * ((3 : ℕ) : ℚ)) :=
  c6_amended_random_perturbation 3 (fun _ => 1) 1 [[(1 : ℚ), 0]] 0
    (by norm_num) (fun _ => by norm_num) (by norm_num)

/- ----------------------------------------------------------------- -/
/- Solver driver cascade (LCPSolver::solve, LCP_solver.hpp)          -/
/- ----------------------------------------------------------------- -/

/-- The `MatLCP` strategy/tier table of `LCPSolver::solve`: 23 entries of
`(strategy, tier)`.  Strategy `0` is the random perturbation step (it leaves
the inner `success` flag at `0`), `1` is Lemke, `2` is lexicographic Lemke,
and `3` is the IterLemke slot whose call is commented out in the source (it
also leaves `success` at `0`). -/
def MatLCP : List (ℕ × ℕ) :=
  [(1, 1), (2, 1), (3, 1),
   (0, 1), (1, 1), (2, 1), (3, 1),
   (0, 1), (1, 1), (2, 1), (3, 1),
   (0, 2), (1, 2), (2, 2), (3, 2),
   (0, 2), (1, 2), (2, 2), (3, 2),
   (0, 3), (1, 3), (2, 3), (3, 3)]

/-- Strategy of cascade step `i` (`MatLCP[comptchgt][0]`). -/
def strategyAt (i : ℕ) : ℕ := (MatLCP.getD i (0, 0)).1

/-- Tier passed to `LCPtest` at step `i`: the source increments `comptchgt`
before the test, so it reads `MatLCP[comptchgt][1]` of the NEXT entry.
(The read stays in bounds because entries with strategy `0` or `3` never
reach the test.) -/
def tierAt (i : ℕ) : ℕ := (MatLCP.getD (i + 1) (0, 0)).2

/-- Abstract numerical environment of one `LCPSolver::solve` call on a fixed
sub-graph.  `W` is `graph_lcp.W`; `lemke i` / `lexicolemke i` give the `z`
produced by the corresponding pivot solver when it is invoked at cascade
step `i` (`none` subsumes solver failure and a `z` containing NaN; note the
perturbations applied before step `i` are a deterministic function of `i`,
so the step index determines the outcome); `LCP_error z` is
`LCP_error(lcp_orig)` with `lcp_orig.z = z`; `calcSol z` is
`LCPSolver::calcSol` (`W + M⁻¹(J z_N + D z_T)`); `calcEc s` is
`LCPSolver::calcEc(s, M, W)`; `vrelnt s` is
`VRelNtest(Jᵀ·s, graph)`. -/
structure DriverEnv where
  W : List ℚ
  lemke : ℕ → Option (List ℚ)
  lexicolemke : ℕ → Option (List ℚ)
  LCP_error : List ℚ → ℚ
  calcSol : List ℚ → List ℚ
  calcEc : List ℚ → ℚ
  vrelnt : List ℚ → Bool

/-- `z` produced by cascade step `i` (with the inner `success` flag raised
and no NaN): only the Lemke and lexicographic-Lemke branches can produce
one; strategy `0` only perturbs and strategy `3` is commented out. -/
def attemptZ (env : DriverEnv) (i : ℕ) : Option (List ℚ) :=
  if strategyAt i = 1 then env.lemke i
  else if strategyAt i = 2 then env.lexicolemke i
  else none

/-- The best-so-far update of `LCPSolver::solve`: keep `(z, Err)` when there
is no best yet (`best_Err == max`) or when the new error is strictly
smaller. -/
def bestUpdate (env : DriverEnv) (best : Option (List ℚ × ℚ)) (z : List ℚ) :
    List ℚ × ℚ :=
  match best with
  | none => (z, env.LCP_error z)
  | some be => if env.LCP_error z < be.2 then (z, env.LCP_error z) else be

/-- One oracle evaluation of `LCPSolver::solve`, recorded for the proofs:
the `z` produced at this step, all `z` produced so far (`seen`, this one
included), the best-so-far `z` the oracle was evaluated on, and the oracle's
verdict. -/
structure DriverEvent where
  produced : List ℚ
  seen : List (List ℚ)
  tested : List ℚ
  accepted : Bool
  deriving DecidableEq

/-- Result of `LCPSolver::solve`: the out-parameter `success`, the returned
vector (`Solc` on success, `graph_lcp.W` on exhaustion), the number of
cascade steps consumed, and the trace of oracle evaluations. -/
structure DriverResult where
  success : Bool
  Sol : List ℚ
  attempts : ℕ
  events : List DriverEvent
  deriving DecidableEq

/-- The `while (!solved)` loop of `LCPSolver::solve`.  `fuel` is
`MatLCP.size() - comptchgt`, so `fuel = 0` is exactly the
`comptchgt >= MatLCP.size()` exit which sets `success = 0` and returns
`graph_lcp.W`; `i` is `comptchgt`; `best` carries `(best_z, best_Err)`
(`none` while `best_Err` is still the `max` sentinel). -/
def driverGo (env : DriverEnv) :
    ℕ → ℕ → Option (List ℚ × ℚ) → List (List ℚ) → List DriverEvent →
    DriverResult
  | 0, i, _, _, evs => ⟨false, env.W, i, evs⟩
  | fuel + 1, i, best, seen, evs =>
    match attemptZ env i with
    | none => driverGo env fuel (i + 1) best seen evs
    | some z =>
      let best' := bestUpdate env best z
      let seen' := seen ++ [z]
      let Solc := env.calcSol best'.1
      let acc := LCPtest (tierAt i) (env.calcEc Solc) 1
        (env.LCP_error best'.1) (env.vrelnt Solc)
      let ev : DriverEvent := ⟨z, seen', best'.1, acc⟩
      if acc then ⟨true, Solc, i + 1, evs ++ [ev]⟩
      else driverGo env fuel (i + 1) (some best') seen' (evs ++ [ev])

/-- `LCPSolver::solve(graph, success)` : run the cascade from the first
table entry with no best solution yet. -/
def driver_solve (env : DriverEnv) : DriverResult :=
  driverGo env MatLCP.length 0 none [] []

theorem driverGo_attempts (env : DriverEnv) :
    ∀ (fuel i : ℕ) (best : Option (List ℚ × ℚ)) (seen : List (List ℚ))
      (evs : List DriverEvent),
      (driverGo env fuel i best seen evs).attempts ≤ i + fuel := by
  intro fuel
  induction fuel with
  | zero => intro i best seen evs; simp [driverGo]
  | succ f ih =>
    intro i best seen evs
    simp only [driverGo]
    cases attemptZ env i with
    | none => exact le_trans (ih (i + 1) best seen evs) (by omega)
    | some z =>
      dsimp only
      split
      · simp
      · exact le_trans (ih (i + 1) _ _ _) (by omega)

theorem driverGo_success_accepted (env : DriverEnv) :
    ∀ (fuel i : ℕ) (best : Option (List ℚ × ℚ)) (seen : List (List ℚ))
      (evs : List DriverEvent),
      (driverGo env fuel i best seen evs).success = true →
      ∃ e ∈ (driverGo env fuel i best seen evs).events, e.accepted = true := by
  intro fuel
  induction fuel with
  | zero => intro i best seen evs h; simp [driverGo] at h
  | succ f ih =>
    intro i best seen evs
    simp only [driverGo]
    cases attemptZ env i with
    | none => exact ih (i + 1) best seen evs
    | some z =>
      dsimp only
      split
      · intro _
        refine ⟨_, List.mem_append_right _ (List.mem_singleton_self _), ?_⟩
        assumption
      · exact ih (i + 1) _ _ _

theorem driverGo_fail_returns_W (env : DriverEnv) :
    ∀ (fuel i : ℕ) (best : Option (List ℚ × ℚ)) (seen : List (List ℚ))
      (evs : List DriverEvent),
      (driverGo env fuel i best seen evs).success = false →
      (driverGo env fuel i best seen evs).Sol = env.W := by
  intro fuel
  induction fuel with
  | zero => intro i best seen evs _; rfl
  | succ f ih =>
    intro i best seen evs
    simp only [driverGo]
    cases attemptZ env i with
    | none => exact ih (i + 1) best seen evs
    | some z =>
      dsimp only
      split
      · intro h; simp at h
      · exact ih (i + 1) _ _ _

/- ----------------------------------------------------------------- -/
/- Floe state write-back (LCP_manager update_floes_state)            -/
/- ----------------------------------------------------------------- -/

/-- The part of a floe's state the manager writes back: linear velocity
`(vx, vy)` (`state().speed`) and angular velocity `rot` (`state().rot`). -/
structure Floe where
  vx : ℚ
  vy : ℚ
  rot : ℚ
  deriving DecidableEq

/-- Modelled from the spec: the pre-collision generalized velocity vector
`W ∈ ℝ³ⁿ` assembled by the graph-to-LCP builder "with per-floe blocks
(vx, vy, ω)"; the builder itself
(`floe/lcp/builder/graph_to_lcp.hpp`) is not among the sources under
verification. -/
def Wvec : List Floe → List ℚ
  | [] => []
  | f :: rest => f.vx :: f.vy :: f.rot :: Wvec rest

/-- `LCPManager::update_floes_state(graph, Sol)` (`ope/LCP_manager.hpp`):
for each vertex `v`, `speed = {Sol(3v), Sol(3v+1)}` and `rot = Sol(3v+2)`.
It is called unconditionally after every driver solve. -/
def update_floes_state (floes : List Floe) (Sol : List ℚ) : List Floe :=
  (List.range floes.length).map fun v =>
    ⟨Sol.getD (3 * v) 0, Sol.getD (3 * v + 1) 0, Sol.getD (3 * v + 2) 0⟩

theorem Wvec_getD (floes : List Floe) :
    ∀ v : ℕ, v < floes.length →
      (Wvec floes).getD (3 * v) 0 = (floes.getD v ⟨0, 0, 0⟩).vx ∧
      (Wvec floes).getD (3 * v + 1) 0 = (floes.getD v ⟨0, 0, 0⟩).vy ∧
      (Wvec floes).getD (3 * v + 2) 0 = (floes.getD v ⟨0, 0, 0⟩).rot := by
  induction floes with
  | nil => intro v hv; simp at hv
  | cons f rest ih =>
    intro v hv
    cases v with
    | zero => simp [Wvec]
    | succ n =>
      have h3 : 3 * (n + 1) = 3 * n + 1 + 1 + 1 := by ring
      have h4 : 3 * (n + 1) + 1 = 3 * n + 1 + 1 + 1 + 1 := by ring
      have h5 : 3 * (n + 1) + 2 = 3 * n + 2 + 1 + 1 + 1 := by ring
      simp only [Wvec, h3, h4, h5, List.getD_cons_succ]
      exact ih n (by simpa using hv)

theorem update_floes_state_Wvec (floes : List Floe) :
    update_floes_state floes (Wvec floes) = floes := by
  unfold update_floes_state
  apply List.ext_getElem
  · simp
  · intro v h1 h2
    have hv : v < floes.length := by simpa using h2
    obtain ⟨e1, e2, e3⟩ := Wvec_getD floes v hv
    simp only [List.getElem_map, List.getElem_range, e1, e2, e3,
      List.getD_eq_getElem _ _ hv]

/-- C3: the cascade of `LCPSolver::solve` makes at most 23 attempts (the
length of `MatLCP`), and when every oracle evaluation rejects it sets
`success = false` and returns `graph_lcp.W`, so the manager's unconditional
`update_floes_state` write-back leaves the floe velocities at their
pre-collision values. -/
theorem c3_driver_exhaustion (env : DriverEnv) (floes : List Floe)
    (hW : env.W = Wvec floes)
    (hexh : ∀ e ∈ (driver_solve env).events, e.accepted = false) :
    (driver_solve env).attempts ≤ 23 ∧
    (driver_solve env).success = false ∧
    (driver_solve env).Sol = Wvec floes ∧
    update_floes_state floes (driver_solve env).Sol = floes := by
  have hlen : MatLCP.length = 23 := rfl
  have hatt : (driver_solve env).attempts ≤ 23 := by
    have h := driverGo_attempts env MatLCP.length 0 none [] []
    rw [hlen] at h
    simpa [driver_solve, hlen] using h
  have hsucc : (driver_solve env).success = false := by
    cases hs : (driver_solve env).success with
    | false => rfl
    | true =>
      obtain ⟨e, he, hacc⟩ := driverGo_success_accepted env MatLCP.length 0
        none [] [] hs
      exact absurd hacc (by simp [hexh e he])
  have hsol : (driver_solve env).Sol = Wvec floes := by
    rw [← hW]
    exact driverGo_fail_returns_W env MatLCP.length 0 none [] [] hsucc
  exact ⟨hatt, hsucc, hsol, by rw [hsol]; exact update_floes_state_Wvec floes⟩

/-- A driver environment in which every pivot-solver invocation fails: the
cascade is exhausted. One floe with pre-collision state `(1, 2, 3)`. -/
def exhaustedDriverEnv : DriverEnv :=
  ⟨Wvec [⟨1, 2, 3⟩], fun _ => none, fun _ => none,
   fun z => z.headD 0, fun s => s, fun _ => 0, fun _ => true⟩

/-- Witness for C3 at a concrete exhausted environment. -/
theorem c3_driver_exhaustion_witness :
    (driver_solve exhaustedDriverEnv).attempts ≤ 23 ∧
    (driver_solve exhaustedDriverEnv).success = false ∧
    (driver_solve exhaustedDriverEnv).Sol = Wvec [⟨1, 2, 3⟩] ∧
    update_floes_state [⟨1, 2, 3⟩] (driver_solve exhaustedDriverEnv).Sol
      = [⟨1, 2, 3⟩] :=
  c3_driver_exhaustion exhaustedDriverEnv [⟨1, 2, 3⟩] rfl (by decide)

/-- Invariant of the best-so-far pair: the stored `z` is among the produced
ones, the stored error is its error, and it minimises the error over all
produced `z`. -/
def BestInv (env : DriverEnv) (best : Option (List ℚ × ℚ))
    (seen : List (List ℚ)) : Prop :=
  match best with
  | none => seen = []
  | some be => be.1 ∈ seen ∧ be.2 = env.LCP_error be.1 ∧
      ∀ z ∈ seen, be.2 ≤ env.LCP_error z

theorem bestUpdate_inv (env : DriverEnv) (best : Option (List ℚ × ℚ))
    (seen : List (List ℚ)) (z : List ℚ) (h : BestInv env best seen) :
    BestInv env (some (bestUpdate env best z)) (seen ++ [z]) := by
  cases best with
  | none =>
    have hseen : seen = [] := h
    subst hseen
    exact ⟨by simp [bestUpdate], rfl, by simp [bestUpdate]⟩
  | some be =>
    obtain ⟨hmem, herr, hmin⟩ := h
    by_cases hlt : env.LCP_error z < be.2
    · have hb : bestUpdate env (some be) z = (z, env.LCP_error z) := by
        simp [bestUpdate, hlt]
      rw [hb]
      refine ⟨List.mem_append_right _ (List.mem_singleton_self z), rfl, ?_⟩
      intro z' hz'
      rcases List.mem_append.mp hz' with h1 | h1
      · exact le_of_lt (lt_of_lt_of_le hlt (hmin z' h1))
      · rw [List.mem_singleton.mp h1]
    · have hb : bestUpdate env (some be) z = be := by
        simp [bestUpdate, hlt]
      rw [hb]
      refine ⟨List.mem_append_left _ hmem, herr, ?_⟩
      intro z' hz'
      rcases List.mem_append.mp hz' with h1 | h1
      · exact hmin z' h1
      · rw [List.mem_singleton.mp h1]
        exact not_lt.mp hlt

theorem driverGo_events_good (env : DriverEnv) :
    ∀ (fuel i : ℕ) (best : Option (List ℚ × ℚ)) (seen : List (List ℚ))
      (evs : List DriverEvent),
      BestInv env best seen →
      (∀ e ∈ evs, e.tested ∈ e.seen ∧
        ∀ z ∈ e.seen, env.LCP_error e.tested ≤ env.LCP_error z) →
      ∀ e ∈ (driverGo env fuel i best seen evs).events,
        e.tested ∈ e.seen ∧
        ∀ z ∈ e.seen, env.LCP_error e.tested ≤ env.LCP_error z := by
  intro fuel
  induction fuel with
  | zero => intro i best seen evs _ hevs; exact hevs
  | succ f ih =>
    intro i best seen evs hinv hevs
    simp only [driverGo]
    cases hz : attemptZ env i with
    | none => exact ih (i + 1) best seen evs hinv hevs
    | some z =>
      dsimp only
      have hinv' := bestUpdate_inv env best seen z hinv
      have hgood : (bestUpdate env best z).1 ∈ seen ++ [z] ∧
          ∀ z' ∈ seen ++ [z],
            env.LCP_error (bestUpdate env best z).1 ≤ env.LCP_error z' := by
        obtain ⟨hm, he, hb⟩ := hinv'
        exact ⟨hm, fun z' hz' => he ▸ hb z' hz'⟩
      split
      · intro e he
        rcases List.mem_append.mp he with he | he
        · exact hevs e he
        · rw [List.mem_singleton.mp he]
          exact hgood
      · refine ih (i + 1) _ _ _ hinv' ?_
        intro e he
        rcases List.mem_append.mp he with he | he
        · exact hevs e he
        · rw [List.mem_singleton.mp he]
          exact hgood

/-- C8: at every oracle evaluation of the cascade, the `z` the oracle is
evaluated on (`tested`, the best-so-far solution) is one of the `z`
produced so far (`seen`) and has minimal complementarity error among them
-- the driver tests the best `z`, not the latest one. -/
theorem c8_best_z_tested (env : DriverEnv) :
    ∀ e ∈ (driver_solve env).events,
      e.tested ∈ e.seen ∧
      ∀ z ∈ e.seen, env.LCP_error e.tested ≤ env.LCP_error z :=
  driverGo_events_good env MatLCP.length 0 none [] [] rfl (by simp)

/-- A driver environment whose first cascade step (Lemke) produces `z = [5]`
with error `0`, kinetic-energy ratio `1` and a passing normal-velocity test,
so the tier-1 oracle accepts at once. -/
def oneAttemptDriverEnv : DriverEnv :=
  ⟨[], fun i => if i = 0 then some [5] else none, fun _ => none,
   fun _ => 0, fun s => s, fun _ => 1, fun _ => true⟩

theorem oneAttempt_step :
    driverGo oneAttemptDriverEnv (22 + 1) 0 none [] [] =
      (if LCPtest (tierAt 0) 1 1 0 true
       then ⟨true, [5], 1, [⟨[5], [[5]], [5], LCPtest (tierAt 0) 1 1 0 true⟩]⟩
       else driverGo oneAttemptDriverEnv 22 1 (some ([5], 0)) [[5]]
              [⟨[5], [[5]], [5], LCPtest (tierAt 0) 1 1 0 true⟩]) := rfl

theorem oneAttempt_events :
    (driver_solve oneAttemptDriverEnv).events = [⟨[5], [[5]], [5], true⟩] := by
  have hacc : LCPtest (tierAt 0) 1 1 0 true = true := by
    have ht : tierAt 0 = 1 := rfl
    rw [ht]
    norm_num [LCPtest]
  show (driverGo oneAttemptDriverEnv (22 + 1) 0 none [] []).events = _
  rw [oneAttempt_step, hacc]
  simp

/-- Witness for C8 at the concrete one-attempt environment. -/
theorem c8_best_z_tested_witness :
    (⟨[5], [[5]], [5], true⟩ : DriverEvent).tested ∈
      (⟨[5], [[5]], [5], true⟩ : DriverEvent).seen ∧
    ∀ z ∈ (⟨[5], [[5]], [5], true⟩ : DriverEvent).seen,
      oneAttemptDriverEnv.LCP_error
          (⟨[5], [[5]], [5], true⟩ : DriverEvent).tested ≤
        oneAttemptDriverEnv.LCP_error z :=
  c8_best_z_tested oneAttemptDriverEnv ⟨[5], [[5]], [5], true⟩
    (by rw [oneAttempt_events]; exact List.mem_singleton_self _)

/- ----------------------------------------------------------------- -/
/- Sub-graph schedulers (lcp/LCP_manager.hpp and ope/LCP_manager.hpp) -/
/- ----------------------------------------------------------------- -/

/-- One write of a contact's shared solved flag during an episode of
`solve_contacts`: the contact id, the value written, and whether the write
belongs to the final give-up marking after the while loop (`true`) or to a
mid-loop `mark_solved(graph, success)` (`false`). -/
structure Ev where
  cid : ℕ
  val : Bool
  giveup : Bool
  deriving DecidableEq

/-- Abstract environment of one connected component (`subgraph`) processed
by `LCPManager::solve_contacts`.  The numerical content is abstracted:
`world0` is the initial floe-velocity state, `numContacts` is
`num_contacts(subgraph)`, `activeSubgraphs s` is `active_subgraphs(subgraph)`
evaluated at state `s` (each active sub-graph listed as its contact ids),
`solve s g` is one driver invocation `m_solver.solve(g, success, ...)`
combined with the unconditional `update_floes_state` (returning the success
flag and the mutated state), and `quadCut` is `quad_cut(g)`. -/
structure SchedEnv (σ : Type) where
  world0 : σ
  numContacts : ℕ
  activeSubgraphs : σ → List (List ℕ)
  solve : σ → List ℕ → Bool × σ
  quadCut : List ℕ → List (List ℕ)

/-- Result of one `solve_contacts` episode on a component: final state,
the sequence of solved-flag writes, and the number of executed passes of
the while loop (`loop_cnt`). -/
structure SchedResult (σ : Type) where
  world : σ
  events : List Ev
  loops : ℕ

/-- Modelled from the spec: the free function `mark_solved(graph, success)`
(declared on the contact graph, outside the sources under verification)
"marks every edge of g as solved through the shared solved flag"; one write
event per contact of the sub-graph. -/
def markEvents (g : List ℕ) (b : Bool) (giveup : Bool) : List Ev :=
  g.map fun c => ⟨c, b, giveup⟩

/-- The quadrant loop: `for (igraph : quad_cut(graph)) { solve; mark_solved;
update_floes_state; }` of `lcp/LCP_manager.hpp`. -/
def runQuad {σ} (env : SchedEnv σ) :
    List (List ℕ) → σ → List Ev → ℕ → σ × List Ev × ℕ
  | [], s, evs, lns => (s, evs, lns)
  | q :: rest, s, evs, lns =>
    let r := env.solve s q
    runQuad env rest r.2 (evs ++ markEvents q r.1 false)
      (lns + if r.1 then 1 else 0)

/-- One full inner pass `for (graph : asubgraphs)` of
`LCPManager::solve_contacts` (`lcp/LCP_manager.hpp`): sub-graphs with more
than 50 contacts are quad-cut, the others are solved directly; each solve is
followed by `mark_solved(graph, success)` and the write-back; `lns` is the
inner (shadowing) `loop_nb_success` counter. -/
def runPass {σ} (env : SchedEnv σ) :
    List (List ℕ) → σ → List Ev → ℕ → σ × List Ev × ℕ
  | [], s, evs, lns => (s, evs, lns)
  | g :: rest, s, evs, lns =>
    if g.length > 50 then
      let r := runQuad env (env.quadCut g) s evs lns
      runPass env rest r.1 r.2.1 r.2.2
    else
      let r := env.solve s g
      runPass env rest r.2 (evs ++ markEvents g r.1 false)
        (lns + if r.1 then 1 else 0)

/-- The OUTER `loop_nb_success` of `lcp/LCP_manager.hpp` (line 129):
initialised to `-1` and never reassigned, because the `int loop_nb_success
= 0` declared inside the while body (line 136) shadows it.  The while
condition `loop_nb_success != 0` reads this constant. -/
def shadowed_loop_nb_success : Int := -1

/-- The code after the while loop: if active sub-graphs remain, each of
their contacts is marked `solved = false` (the final give-up). -/
def finishSched {σ} (asubs : List (List ℕ)) (s : σ) (loops : ℕ)
    (evs : List Ev) : SchedResult σ :=
  ⟨s, evs ++ (asubs.map fun g => markEvents g false true).flatten, loops⟩

/-- The while loop of `LCPManager::solve_contacts` (`lcp/LCP_manager.hpp`):
`while (asubgraphs.size() != 0 && loop_cnt < min(60*num_contacts, 1000) &&
loop_nb_success != 0)`.  `fuel` is the remaining distance of `loop_cnt` to
the cap, so `fuel = 0` is the `loop_cnt < cap` exit; the third conjunct
reads the shadowed outer variable. -/
def schedGo {σ} (env : SchedEnv σ) :
    ℕ → List (List ℕ) → σ → ℕ → List Ev → SchedResult σ
  | 0, asubs, s, loops, evs => finishSched asubs s loops evs
  | fuel + 1, asubs, s, loops, evs =>
    if asubs.length = 0 ∨ shadowed_loop_nb_success = 0 then
      finishSched asubs s loops evs
    else
      let r := runPass env asubs s evs 0
      schedGo env fuel (env.activeSubgraphs r.1) r.1 (loops + 1) r.2.1

/-- The iteration cap `std::min(60 * num_contacts(subgraph),
std::size_t{1000})` of `lcp/LCP_manager.hpp`. -/
def iterCap (n : ℕ) : ℕ := min (60 * n) 1000

/-- One component episode of `LCPManager::solve_contacts`
(`lcp/LCP_manager.hpp`). -/
def solve_contacts {σ} (env : SchedEnv σ) : SchedResult σ :=
  schedGo env (iterCap env.numContacts) (env.activeSubgraphs env.world0)
    env.world0 0 []

/-- Inner pass of the parallel `ope/LCP_manager.hpp` variant of
`solve_contacts`: no quad-cut, solve + mark + unconditional write-back. -/
def opePass {σ} (env : SchedEnv σ) : List (List ℕ) → σ → σ
  | [], s => s
  | g :: rest, s => opePass env rest (env.solve s g).2

/-- The while loop of `ope/LCP_manager.hpp` (line 85):
`while (asubgraphs.size() != 0 && loop_cnt < 60 * num_contacts(subgraph))`
-- note: no 1000 ceiling and no progress guard. -/
def opeGo {σ} (env : SchedEnv σ) : ℕ → List (List ℕ) → σ → ℕ → σ × ℕ
  | 0, _, s, loops => (s, loops)
  | fuel + 1, asubs, s, loops =>
    if asubs.length = 0 then (s, loops)
    else
      let s' := opePass env asubs s
      opeGo env fuel (env.activeSubgraphs s') s' (loops + 1)

/-- One component episode of the `ope/LCP_manager.hpp` scheduler. -/
def ope_solve_contacts {σ} (env : SchedEnv σ) : σ × ℕ :=
  opeGo env (60 * env.numContacts) (env.activeSubgraphs env.world0)
    env.world0 0

theorem markEvents_mem {g : List ℕ} {b gu : Bool} {e : Ev}
    (h : e ∈ markEvents g b gu) : e.val = b ∧ e.giveup = gu := by
  obtain ⟨c, _, rfl⟩ := List.mem_map.mp h
  exact ⟨rfl, rfl⟩

theorem runQuad_events_pres {σ} (env : SchedEnv σ) (P : Ev → Prop)
    (hmk : ∀ (s : σ) (q : List ℕ),
      ∀ e ∈ markEvents q (env.solve s q).1 false, P e) :
    ∀ (qs : List (List ℕ)) (s : σ) (evs : List Ev) (lns : ℕ),
      (∀ e ∈ evs, P e) → ∀ e ∈ (runQuad env qs s evs lns).2.1, P e := by
  intro qs
  induction qs with
  | nil => intro s evs lns hevs; exact hevs
  | cons q rest ih =>
    intro s evs lns hevs
    refine ih _ _ _ ?_
    intro e he
    rcases List.mem_append.mp he with h1 | h1
    · exact hevs e h1
    · exact hmk s q e h1

theorem runPass_events_pres {σ} (env : SchedEnv σ) (P : Ev → Prop)
    (hmk : ∀ (s : σ) (g : List ℕ),
      ∀ e ∈ markEvents g (env.solve s g).1 false, P e) :
    ∀ (asubs : List (List ℕ)) (s : σ) (evs : List Ev) (lns : ℕ),
      (∀ e ∈ evs, P e) → ∀ e ∈ (runPass env asubs s evs lns).2.1, P e := by
  intro asubs
  induction asubs with
  | nil => intro s evs lns hevs; exact hevs
  | cons g rest ih =>
    intro s evs lns hevs
    by_cases hlen : g.length > 50
    · simp only [runPass, if_pos hlen]
      exact ih _ _ _ (runQuad_events_pres env P hmk (env.quadCut g) s evs lns hevs)
    · simp only [runPass, if_neg hlen]
      refine ih _ _ _ ?_
      intro e he
      rcases List.mem_append.mp he with h1 | h1
      · exact hevs e h1
      · exact hmk s g e h1

theorem finishSched_events_pres {σ} (P : Ev → Prop)
    (hgu : ∀ (g : List ℕ), ∀ e ∈ markEvents g false true, P e) :
    ∀ (asubs : List (List ℕ)) (s : σ) (loops : ℕ) (evs : List Ev),
      (∀ e ∈ evs, P e) → ∀ e ∈ (finishSched asubs s loops evs).events, P e := by
  intro asubs s loops evs hevs e he
  rcases List.mem_append.mp he with h1 | h1
  · exact hevs e h1
  · obtain ⟨l, hl, hel⟩ := List.mem_flatten.mp h1
    obtain ⟨g, _, rfl⟩ := List.mem_map.mp hl
    exact hgu g e hel

theorem schedGo_events_pres {σ} (env : SchedEnv σ) (P : Ev → Prop)
    (hmk : ∀ (s : σ) (g : List ℕ),
      ∀ e ∈ markEvents g (env.solve s g).1 false, P e)
    (hgu : ∀ (g : List ℕ), ∀ e ∈ markEvents g false true, P e) :
    ∀ (fuel : ℕ) (asubs : List (List ℕ)) (s : σ) (loops : ℕ) (evs : List Ev),
      (∀ e ∈ evs, P e) → ∀ e ∈ (schedGo env fuel asubs s loops evs).events, P e := by
  intro fuel
  induction fuel with
  | zero =>
    intro asubs s loops evs hevs
    exact finishSched_events_pres P hgu asubs s loops evs hevs
  | succ f ih =>
    intro asubs s loops evs hevs
    simp only [schedGo]
    split
    · exact finishSched_events_pres P hgu asubs s loops evs hevs
    · exact ih _ _ _ _ (runPass_events_pres env P hmk asubs s evs 0 hevs)

theorem schedGo_loops_le {σ} (env : SchedEnv σ) :
    ∀ (fuel : ℕ) (asubs : List (List ℕ)) (s : σ) (loops : ℕ) (evs : List Ev),
      (schedGo env fuel asubs s loops evs).loops ≤ loops + fuel := by
  intro fuel
  induction fuel with
  | zero => intro asubs s loops evs; simp [schedGo, finishSched]
  | succ f ih =>
    intro asubs s loops evs
    simp only [schedGo]
    split
    · simp [finishSched]
    · exact le_trans (ih _ _ _ _) (by omega)

theorem opeGo_loops_le {σ} (env : SchedEnv σ) :
    ∀ (fuel : ℕ) (asubs : List (List ℕ)) (s : σ) (loops : ℕ),
      (opeGo env fuel asubs s loops).2 ≤ loops + fuel := by
  intro fuel
  induction fuel with
  | zero => intro asubs s loops; simp [opeGo]
  | succ f ih =>
    intro asubs s loops
    simp only [opeGo]
    split
    · simp
    · exact le_trans (ih _ _ _) (by omega)

/-- A component with a single contact whose driver solve always fails and
which therefore stays active: the environment of the C1 failing input. -/
def envFail : SchedEnv Unit :=
  ⟨(), 1, fun _ => [[0]], fun s _ => (false, s), fun g => [g]⟩

/-- C1 (code bug evidence): on `envFail` the very first pass produces zero
driver successes, yet the while loop of `lcp/LCP_manager.hpp` runs all
`min(60·1, 1000) = 60` passes instead of exiting after one: the guard
`loop_nb_success != 0` reads the outer variable frozen at `-1` because the
inner declaration shadows it. -/
theorem c1_progress_guard_ineffective :
    (runPass envFail [[0]] () [] 0).2.2 = 0 ∧
    (solve_contacts envFail).loops = 60 ∧
    iterCap envFail.numContacts = 60 ∧
    (solve_contacts envFail).loops ≠ 1 := by
  refine ⟨by decide, by decide, by decide, by decide⟩

/-- A component with a single contact whose first driver solve succeeds,
whose second fails, and which becomes inactive after two solves: the C2
counterexample environment.  The state counts the driver invocations. -/
def envC2 : SchedEnv ℕ :=
  ⟨0, 1, fun s => if s < 2 then [[0]] else [],
   fun s _ => (decide (s = 0), s + 1), fun g => [g]⟩

/-- C2 counterexample: on `envC2` contact `0` is marked `solved = true` by
the first (successful) solve and then marked `solved = false` by the second
(failed) solve while still inside the while loop -- a mid-loop action does
set a solved flag from `true` back to `false`, and not on a final give-up. -/
theorem c2_monotone_counterexample :
    (solve_contacts envC2).events = [⟨0, true, false⟩, ⟨0, false, false⟩] ∧
    ¬ (∀ e ∈ (solve_contacts envC2).events,
        e.val = false → e.giveup = true) := by
  exact ⟨by decide, by decide⟩

/-- C2 amended: each mid-loop write of a contact's solved flag stores the
success of the driver solve of the sub-graph containing it, so a failed
solve resets the flag to `false` mid-loop; every give-up write stores
`false`; and when every driver solve of the episode succeeds, every mid-loop
write stores `true` (so flags are monotone in that case). -/
theorem c2_amended_flag_writes {σ} (env : SchedEnv σ) :
    (∀ e ∈ (solve_contacts env).events, e.giveup = true → e.val = false) ∧
    ((∀ (s : σ) (g : List ℕ), (env.solve s g).1 = true) →
      ∀ e ∈ (solve_contacts env).events, e.giveup = false → e.val = true) := by
  constructor
  · refine schedGo_events_pres env (fun e => e.giveup = true → e.val = false)
      ?_ ?_ _ _ _ _ _ (by simp)
    · intro s g e he hgu
      exact absurd ((markEvents_mem he).2.symm.trans hgu) Bool.false_ne_true
    · intro g e he _
      exact (markEvents_mem he).1
  · intro hall
    refine schedGo_events_pres env (fun e => e.giveup = false → e.val = true)
      ?_ ?_ _ _ _ _ _ (by simp)
    · intro s g e he _
      exact (markEvents_mem he).1.trans (hall s g)
    · intro g e he hgu
      exact absurd ((markEvents_mem he).2.symm.trans hgu) (by simp)

/-- A component with a single always-active contact whose driver solve
always succeeds: the loop runs to the cap and then gives up. -/
def envAllSuccess : SchedEnv Unit :=
  ⟨(), 1, fun _ => [[0]], fun s _ => (true, s), fun g => [g]⟩

/-- Witness for the amended C2 on `envAllSuccess`: its give-up write stores
`false` and its mid-loop writes store `true`. -/
theorem c2_amended_flag_writes_witness :
    (⟨0, false, true⟩ : Ev).val = false ∧ (⟨0, true, false⟩ : Ev).val = true :=
  ⟨(c2_amended_flag_writes envAllSuccess).1 ⟨0, false, true⟩ (by decide) rfl,
   (c2_amended_flag_writes envAllSuccess).2 (fun _ _ => rfl) ⟨0, true, false⟩
     (by decide) rfl⟩

/-- A component with 17 contacts that stays active forever (every solve
fails): the `ope/LCP_manager.hpp` loop bound `60 * 17 = 1020` exceeds the
claimed `min(60 * 17, 1000) = 1000`. -/
def env17 : SchedEnv Unit :=
  ⟨(), 17, fun _ => [[0]], fun s _ => (false, s), fun g => [g]⟩

set_option maxRecDepth 10000 in
/-- C5 counterexample: the `ope/LCP_manager.hpp` scheduler (cited by the
claim) has no 1000 ceiling: on `env17` its while loop executes
`60 * 17 = 1020 > 1000 = min(60 * 17, 1000)` iterations. -/
theorem c5_cap_counterexample :
    (ope_solve_contacts env17).2 = 1020 ∧
    ¬ ((ope_solve_contacts env17).2 ≤ iterCap env17.numContacts) := by
  have h : (ope_solve_contacts env17).2 = 1020 := by decide
  refine ⟨h, ?_⟩
  rw [h]
  decide

/-- C5 amended: the `lcp/LCP_manager.hpp` scheduler executes at most
`min(60 * num_contacts, 1000)` passes of its while loop, and reaching the
cap falls through to the normal give-up marking (no error); the
`ope/LCP_manager.hpp` variant is bounded only by `60 * num_contacts`. -/
theorem c5_amended_iteration_caps {σ τ : Type} :
    (∀ env : SchedEnv σ, (solve_contacts env).loops ≤ iterCap env.numContacts) ∧
    (∀ env : SchedEnv τ, (ope_solve_contacts env).2 ≤ 60 * env.numContacts) ∧
    ((solve_contacts envFail).events.getLast? = some ⟨0, false, true⟩) := by
  refine ⟨?_, ?_, by decide⟩
  · intro env
    have h := schedGo_loops_le env (iterCap env.numContacts)
      (env.activeSubgraphs env.world0) env.world0 0 []
    simpa [solve_contacts] using h
  · intro env
    have h := opeGo_loops_le env (60 * env.numContacts)
      (env.activeSubgraphs env.world0) env.world0 0
    simpa [ope_solve_contacts] using h
